import Mathlib

/-! Formal model of the wopr-plugin-soul core: the two-tier file resolver, the
markdown section editor, the soul.get and soul.update tool handlers
(src/soul-a2a-tools.ts) and the soul context provider
(src/soul-context-provider.ts).

Strings are modelled as `List Char`.  The JavaScript regular expression built
at soul-a2a-tools.ts:101-102 is embedded concretely: every metacharacter of
the section name is escaped (so the head of the pattern is a literal,
case-insensitive occurrence of the heading text), followed by a lazy
any-character run bounded by a lookahead for the next second-level heading or
end of input.  `String.prototype.replace` substitution sequences in the
replacement text (dollar-dollar, dollar-ampersand, dollar-backquote,
dollar-quote; the regex has no capture groups, so every other dollar sequence
is literal) are expanded per ECMA-262 GetSubstitution.  Case folding of the
regex `i` flag is modelled by `Char.toLower`, exact on the ASCII range used by
the persona files and the repository's tests.  Filesystem state is passed
explicitly (an existence predicate plus read results); a missing file is an
ordinary value and never an error, mirroring the source. -/

namespace WoprSoul

/-- Character list of a Lean string literal. -/
def lit (s : String) : List Char := s.data

/-- The quote character, code 39. -/
def aposChar : Char := Char.ofNat 39

/-- The backquote character, code 96. -/
def backquoteChar : Char := Char.ofNat 96

/-- Does `xs` start with the pattern `p`, byte-exact? -/
def litStartsWith : List Char → List Char → Bool
  | [], _ => true
  | _ :: _, [] => false
  | p :: ps, x :: xs => (p == x) && litStartsWith ps xs

/-- Does `xs` start with `p` up to case (models the regex `i` flag)? -/
def startsWithCI : List Char → List Char → Bool
  | [], _ => true
  | _ :: _, [] => false
  | p :: ps, x :: xs => (Char.toLower p == Char.toLower x) && startsWithCI ps xs

/-- Does the byte-exact pattern `p` occur anywhere in the text? -/
def occursLit (p : List Char) : List Char → Bool
  | [] => litStartsWith p []
  | x :: xs => litStartsWith p (x :: xs) || occursLit p xs

/-- Does `p` occur anywhere in the text, case-insensitively? -/
def occursCI (p : List Char) : List Char → Bool
  | [] => startsWithCI p []
  | x :: xs => startsWithCI p (x :: xs) || occursCI p xs

/-- Index of the leftmost case-insensitive occurrence of `p`: the start
position a JavaScript regex search finds for a literal case-insensitive
pattern head. -/
def findCI (p : List Char) : List Char → Option Nat
  | [] => if startsWithCI p [] then some 0 else none
  | x :: xs => if startsWithCI p (x :: xs) then some 0 else (findCI p xs).map (fun n => n + 1)

/-- The lookahead text of the section regex: a newline starting the next
second-level heading (pattern fragment at soul-a2a-tools.ts:102). -/
def nlHeading : List Char := ['\n', '#', '#', ' ']

/-- Heading text for a section name: hash, hash, space, then the name
(pattern head at soul-a2a-tools.ts:102, template at line 103). -/
def headPat (s : List Char) : List Char := '#' :: '#' :: ' ' :: s

/-- Number of characters the lazy any-character run of the section regex
consumes: the least offset whose suffix begins the next heading, or all
remaining characters (the end-of-input alternative of the lookahead). -/
def endScan : List Char → Nat
  | [] => 0
  | x :: xs => if litStartsWith nlHeading (x :: xs) then 0 else 1 + endScan xs

/-- Span (start, stop) matched in `doc` by the section regex of
soul-a2a-tools.ts:102 for section name `s`: the leftmost case-insensitive
occurrence of the literal heading, extended lazily to the next heading or to
end of input. -/
def sectionMatch (doc s : List Char) : Option (Nat × Nat) :=
  match findCI (headPat s) doc with
  | none => none
  | some i =>
      let j := i + (headPat s).length
      some (i, j + endScan (List.drop j doc))

/-- The characters escaped at soul-a2a-tools.ts:101: the regex metacharacter
class dot, star, plus, question, caret, dollar, braces, parens, bar,
brackets, backslash. -/
def metachars : List Char :=
  ['.', '*', '+', '?', '^', '$', Char.ofNat 123, Char.ofNat 125, '(', ')', '|', '[', ']', '\\']

/-- Model of soul-a2a-tools.ts:101: every regex metacharacter of the section
name is prefixed with a backslash. -/
def escapeRegex : List Char → List Char
  | [] => []
  | c :: rest => if c ∈ metachars then '\\' :: c :: escapeRegex rest else c :: escapeRegex rest

/-- Parse a regex fragment that is a plain literal.  An unescaped
metacharacter (which would act as a pattern operator) or a backslash followed
by a non-metacharacter (a character-class escape) yields `none`; otherwise
the literal text the fragment denotes is returned. -/
def fragLiteral? : List Char → Option (List Char)
  | [] => some []
  | c :: rest =>
      if c = '\\' then
        match rest with
        | [] => none
        | d :: rest2 => if d ∈ metachars then (fragLiteral? rest2).map (fun l => d :: l) else none
      else if c ∈ metachars then none
      else (fragLiteral? rest).map (fun l => c :: l)

/-- Does the text contain an ECMA-262 replacement pattern, i.e. a dollar sign
immediately followed by dollar, ampersand, backquote or quote?  The section
regex has no capture groups, so these are the only special sequences. -/
def hasReplPat : List Char → Bool
  | [] => false
  | c :: rest =>
      if c = '$' then
        match rest with
        | [] => false
        | d :: rest2 => if d = '$' ∨ d = '&' ∨ d = backquoteChar ∨ d = aposChar then true
            else hasReplPat (d :: rest2)
      else hasReplPat rest

/-- GetSubstitution of ECMA-262 String.replace for a regex with no capture
groups: `m` is the matched text, `b` the text before the match, `a` the text
after it.  Dollar-dollar emits a dollar, dollar-ampersand emits the match,
dollar-backquote emits `b`, dollar-quote emits `a`; any other character, and
a dollar in any other context, is copied literally. -/
def expandRepl (m b a : List Char) : List Char → List Char
  | [] => []
  | c :: rest =>
      if c = '$' then
        match rest with
        | [] => ['$']
        | d :: rest2 =>
            if d = '$' then '$' :: expandRepl m b a rest2
            else if d = '&' then m ++ expandRepl m b a rest2
            else if d = backquoteChar then b ++ expandRepl m b a rest2
            else if d = aposChar then a ++ expandRepl m b a rest2
            else '$' :: expandRepl m b a (d :: rest2)
      else c :: expandRepl m b a rest

/-- Replacement text built at soul-a2a-tools.ts:103: the heading, a blank
line, the body, a trailing newline. -/
def newSectionText (s b : List Char) : List Char :=
  headPat s ++ '\n' :: '\n' :: (b ++ ['\n'])

/-- The section upsert of the soul.update handler (soul-a2a-tools.ts:101-108):
if the section regex matches, the matched span is replaced by the new section
text (with ECMA replacement-pattern expansion, fed by the matched text and
its surroundings); otherwise a newline and the new section text are appended
to the document. -/
def upsertSection (existing s b : List Char) : List Char :=
  match sectionMatch existing s with
  | some (i, j) =>
      List.take i existing ++
        expandRepl (List.take (j - i) (List.drop i existing)) (List.take i existing)
          (List.drop j existing) (newSectionText s b) ++
        List.drop j existing
  | none => existing ++ '\n' :: newSectionText s b

/-- Default document synthesised when no session file exists
(soul-a2a-tools.ts:100). -/
def defaultHeader : List Char := lit "# SOUL.md - Persona & Boundaries\n\n"

/-- Model of node path.join for the joins the plugin performs: parent
directory, separator, child segment. -/
def joinP (a b : List Char) : List Char := a ++ '/' :: b

/-- Environment read at module load (soul-a2a-tools.ts:17-19): the optional
WOPR_HOME and WOPR_GLOBAL_IDENTITY overrides and the user home directory. -/
structure SoulEnv where
  woprHome : Option (List Char)
  globalIdentity : Option (List Char)
  homedir : List Char
  deriving DecidableEq

/-- JavaScript truthy-or-default (the pattern `env.X || default` at
soul-a2a-tools.ts:17-19): an empty string is falsy. -/
def orDefault (o : Option (List Char)) (d : List Char) : List Char :=
  match o with
  | none => d
  | some s => if s.isEmpty then d else s

/-- WOPR_HOME (soul-a2a-tools.ts:17). -/
def woprHomeDir (e : SoulEnv) : List Char := orDefault e.woprHome (joinP e.homedir (lit "wopr"))

/-- SESSIONS_DIR (soul-a2a-tools.ts:18). -/
def sessionsDirOf (e : SoulEnv) : List Char := joinP (woprHomeDir e) (lit "sessions")

/-- GLOBAL_IDENTITY_DIR (soul-a2a-tools.ts:19). -/
def globalIdentityDirOf (e : SoulEnv) : List Char := orDefault e.globalIdentity (lit "/data/identity")

/-- Per-session directory (soul-a2a-tools.ts:89). -/
def sessionDirOf (e : SoulEnv) (name : List Char) : List Char := joinP (sessionsDirOf e) name

/-- Session-tier SOUL.md path, the only write target of soul.update
(soul-a2a-tools.ts:90). -/
def soulPathOf (e : SoulEnv) (name : List Char) : List Char :=
  joinP (sessionDirOf e name) (lit "SOUL.md")

/-- A concrete environment (no overrides) used to instantiate theorems. -/
def sampleEnv : SoulEnv := { woprHome := none, globalIdentity := none, homedir := lit "/home/u" }

/-- Arguments of soul.update (soul-a2a-tools.ts:84-88): each field absent or
a string.  The source calls the second field `section`, a Lean keyword. -/
structure UpdateArgs where
  content : Option (List Char)
  sectionName : Option (List Char)
  sectionContent : Option (List Char)
  deriving DecidableEq

/-- JavaScript truthiness of an optional string: present and non-empty. -/
def truthy : Option (List Char) → Bool
  | none => false
  | some s => !s.isEmpty

/-- Tool result envelope: the text payload, plus the error-flag field, which
the handlers never set (modelled as an optional field left `none`, matching
the absent isError key of the returned object). -/
structure ToolResult where
  text : List Char
  isError : Option Bool
  deriving DecidableEq

/-- Effect of one soul.update invocation: the file writes performed (path and
data, in order) and the returned result. -/
structure UpdateEffect where
  writes : List (List Char × List Char)
  result : ToolResult
  deriving DecidableEq

/-- Guidance text of soul-a2a-tools.ts:114. -/
def guidanceText : List Char :=
  lit "Provide " ++ (aposChar :: lit "content" ++ [aposChar]) ++ lit " or " ++
    (aposChar :: lit "section" ++ [aposChar]) ++ lit "+" ++
    (aposChar :: lit "sectionContent" ++ [aposChar])

/-- Result text of soul-a2a-tools.ts:110. -/
def updatedText (s : List Char) : List Char :=
  lit "SOUL.md section \"" ++ s ++ lit "\" updated"

/-- The soul.update handler (soul-a2a-tools.ts:83-116).  `file` is the
session-tier SOUL.md as found on disk, `none` when existsSync is false.
Reads are assumed to succeed: the handler installs no catch, so a throwing
read would propagate to the host and is outside this model.  The handler is
total; invalid argument combinations produce the guidance result, not a
failure. -/
def soulUpdate (e : SoulEnv) (name : List Char) (file : Option (List Char))
    (args : UpdateArgs) : UpdateEffect :=
  let path := soulPathOf e name
  if truthy args.content then
    { writes := [(path, args.content.getD [])],
      result := { text := lit "SOUL.md replaced entirely", isError := none } }
  else if truthy args.sectionName && truthy args.sectionContent then
    { writes := [(path, upsertSection (file.getD defaultHeader)
        (args.sectionName.getD []) (args.sectionContent.getD []))],
      result := { text := updatedText (args.sectionName.getD []), isError := none } }
  else
    { writes := [], result := { text := guidanceText, isError := none } }

/-- Result of resolveRootFile (soul-a2a-tools.ts:24-34). -/
structure Resolved where
  path : List Char
  exists_ : Bool
  isGlobal : Bool
  deriving DecidableEq

/-- resolveRootFile (soul-a2a-tools.ts:24-34) over an abstract existence
predicate `ex` standing for existsSync: the global candidate first, then the
session candidate, else the session path flagged missing.  The function is
total: a missing file is an ordinary value, never an exception. -/
def resolveRootFile (ex : List Char → Bool) (globalDir sessionDir filename : List Char) : Resolved :=
  let globalPath := joinP globalDir filename
  if ex globalPath then { path := globalPath, exists_ := true, isGlobal := true }
  else
    let sessionPath := joinP sessionDir filename
    if ex sessionPath then { path := sessionPath, exists_ := true, isGlobal := false }
    else { path := sessionPath, exists_ := false, isGlobal := false }

/-- The soul.get handler (soul-a2a-tools.ts:46-61): resolve SOUL.md, then
return either the not-found text or the raw content behind a source tag.
`rd` stands for readFileSync during this call (assumed not to throw; the
handler installs no catch). -/
def soulGet (ex : List Char → Bool) (rd : List Char → List Char) (e : SoulEnv)
    (name : List Char) : ToolResult :=
  let r := resolveRootFile ex (globalIdentityDirOf e) (sessionDirOf e name) (lit "SOUL.md")
  if r.exists_ then
    { text := lit "[Source: " ++ (if r.isGlobal then lit "global" else lit "session") ++
        lit "]\n\n" ++ rd r.path,
      isError := none }
  else
    { text := lit "No SOUL.md found.", isError := none }

/-- JavaScript String.trim whitespace (the common code points; the content in
the repository and its tests is ASCII). -/
def isJsWS (c : Char) : Bool :=
  c = ' ' || c = '\t' || c = '\n' || c = '\r' ||
    c = Char.ofNat 11 || c = Char.ofNat 12 || c = Char.ofNat 160 || c = Char.ofNat 65279

/-- `content.trim()` is non-empty: the truthiness tests at
soul-context-provider.ts:31 and 52. -/
def hasNonWS (c : List Char) : Bool := c.any (fun ch => !(isJsWS ch))

/-- State of one tier's SOUL.md as the provider sees it: missing, present
but with a throwing read, or readable with content. -/
inductive FileView where
  | absent : FileView
  | unreadable : FileView
  | readable : List Char → FileView
  deriving DecidableEq

/-- A tier contributes nothing: missing, unreadable, or blank content. -/
def blankish : FileView → Bool
  | .absent => true
  | .unreadable => true
  | .readable c => !(hasNonWS c)

/-- Context fragment (metadata fields inlined). -/
structure ContextPart where
  content : List Char
  role : List Char
  source : List Char
  priority : Nat
  location : List Char
  deriving DecidableEq

/-- Global-tier fragment (soul-context-provider.ts:32-40). -/
def globalFrag (c : List Char) : ContextPart :=
  { content := lit "## Soul (Global)\n\n" ++ c, role := lit "system",
    source := lit "soul", priority := 8, location := lit "global" }

/-- Session-tier fragment (soul-context-provider.ts:53-61). -/
def sessionFrag (c : List Char) : ContextPart :=
  { content := lit "## Soul\n\n" ++ c, role := lit "system",
    source := lit "soul", priority := 8, location := lit "session" }

/-- The session-tier attempt (soul-context-provider.ts:48-66): a missing
file, a throwing read, or blank content yields nothing. -/
def sessionAttempt : FileView → Option ContextPart
  | .readable c => if hasNonWS c then some (sessionFrag c) else none
  | _ => none

/-- soulContextProvider.getContext (soul-context-provider.ts:25-69): global
tier first; a missing file, a throwing read, or blank content there falls
through to the session tier, and a failure at the session tier likewise
yields the absent signal `none` rather than an error. -/
def getContext (g s : FileView) : Option ContextPart :=
  match g with
  | .readable c => if hasNonWS c then some (globalFrag c) else sessionAttempt s
  | _ => sessionAttempt s

/-- Two adjacent characters case-folding to hash, hash occur in the text:
the only way the section heading pattern can find a match. -/
def hasDoubleHash : List Char → Bool
  | c :: d :: rest => ((Char.toLower c == '#') && (Char.toLower d == '#')) || hasDoubleHash (d :: rest)
  | _ => false

/-- A byte-exact pattern starts every text it prefixes. -/
theorem litStartsWith_refl_append (p r : List Char) : litStartsWith p (p ++ r) = true := by
  induction p with
  | nil => rfl
  | cons a t ih => simp [litStartsWith, ih]

/-- A byte-exact pattern starts itself. -/
theorem litStartsWith_self (p : List Char) : litStartsWith p p = true := by
  have h := litStartsWith_refl_append p []
  rwa [List.append_nil] at h

/-- A case-insensitive pattern starts every text it prefixes. -/
theorem startsWithCI_refl_append (p r : List Char) : startsWithCI p (p ++ r) = true := by
  induction p with
  | nil => rfl
  | cons a t ih => simp [startsWithCI, ih]

/-- A pattern that starts the text occurs in the text. -/
theorem occursLit_of_startsWith {p xs : List Char} (h : litStartsWith p xs = true) :
    occursLit p xs = true := by
  cases xs with
  | nil => simpa [occursLit] using h
  | cons x t => simp [occursLit, h]

/-- Occurrence survives prepending text. -/
theorem occursLit_append_left {p ys : List Char} (xs : List Char) (h : occursLit p ys = true) :
    occursLit p (xs ++ ys) = true := by
  induction xs with
  | nil => simpa using h
  | cons x t ih => simp [occursLit, ih]

/-- The leftmost-occurrence search returns exactly the position where the
pattern first starts. -/
theorem findCI_eq_some (p : List Char) :
    ∀ (xs : List Char) (i : Nat),
      (∀ k, k < i → startsWithCI p (List.drop k xs) = false) →
      startsWithCI p (List.drop i xs) = true → findCI p xs = some i := by
  intro xs
  induction xs with
  | nil =>
      intro i hlt hat
      cases i with
      | zero => simpa [findCI] using hat
      | succ n =>
          have h0 := hlt 0 (Nat.succ_pos n)
          simp at h0 hat
          rw [h0] at hat
          exact absurd hat (by simp)
  | cons x t ih =>
      intro i hlt hat
      cases i with
      | zero =>
          simp only [List.drop_zero] at hat
          simp [findCI, hat]
      | succ n =>
          have h0 := hlt 0 (Nat.succ_pos n)
          simp only [List.drop_zero] at h0
          have ht := ih n (fun k hk => by
              have := hlt (k + 1) (Nat.succ_lt_succ hk)
              simpa [List.drop_succ_cons] using this)
            (by simpa [List.drop_succ_cons] using hat)
          simp [findCI, h0, ht]

/-- When the pattern occurs nowhere, the search fails. -/
theorem findCI_eq_none (p : List Char) :
    ∀ xs, occursCI p xs = false → findCI p xs = none := by
  intro xs
  induction xs with
  | nil => intro h; simp only [occursCI] at h; simp [findCI, h]
  | cons x t ih =>
      intro h
      simp only [occursCI, Bool.or_eq_false_iff] at h
      simp [findCI, h.1, ih h.2]

/-- The search succeeds exactly when the pattern occurs. -/
theorem findCI_isSome (p : List Char) :
    ∀ xs, (findCI p xs).isSome = occursCI p xs := by
  intro xs
  induction xs with
  | nil => cases hb : startsWithCI p [] <;> simp [findCI, occursCI, hb]
  | cons x t ih => cases hb : startsWithCI p (x :: t) <;> simp [findCI, occursCI, hb, ih]

/-- The lazy run stops exactly where the next-heading lookahead first
succeeds. -/
theorem endScan_eq_at :
    ∀ (xs : List Char) (n : Nat),
      (∀ k, k < n → litStartsWith nlHeading (List.drop k xs) = false) →
      litStartsWith nlHeading (List.drop n xs) = true → endScan xs = n := by
  intro xs
  induction xs with
  | nil =>
      intro n hlt hat
      rw [List.drop_nil] at hat
      exact absurd hat (by decide)
  | cons x t ih =>
      intro n hlt hat
      cases n with
      | zero =>
          simp only [List.drop_zero] at hat
          simp [endScan, hat]
      | succ m =>
          have h0 := hlt 0 (Nat.succ_pos m)
          simp only [List.drop_zero] at h0
          have ht := ih m (fun k hk => by
              have := hlt (k + 1) (Nat.succ_lt_succ hk)
              simpa [List.drop_succ_cons] using this)
            (by simpa [List.drop_succ_cons] using hat)
          simp [endScan, h0, ht, Nat.add_comm]

/-- When the next-heading lookahead never succeeds, the lazy run consumes
everything (the end-of-input alternative of the lookahead). -/
theorem endScan_eq_len :
    ∀ (xs : List Char),
      (∀ k, k < xs.length → litStartsWith nlHeading (List.drop k xs) = false) →
      endScan xs = xs.length := by
  intro xs
  induction xs with
  | nil => intro _; rfl
  | cons x t ih =>
      intro h
      have h0 := h 0 (by simp)
      simp only [List.drop_zero] at h0
      have ht := ih (fun k hk => by
        have := h (k + 1) (by simpa using Nat.succ_lt_succ hk)
        simpa [List.drop_succ_cons] using this)
      simp [endScan, h0, ht, Nat.add_comm]

/-- A replacement text without dollar patterns is substituted verbatim. -/
theorem expandRepl_eq_self (m b a : List Char) :
    ∀ (r : List Char), hasReplPat r = false → expandRepl m b a r = r := by
  have key : ∀ (n : Nat) (r : List Char), r.length ≤ n → hasReplPat r = false →
      expandRepl m b a r = r := by
    intro n
    induction n with
    | zero =>
        intro r hr _
        have hre : r = [] := List.length_eq_zero.mp (Nat.le_zero.mp hr)
        subst hre; rfl
    | succ n ih =>
        intro r hr h
        match r with
        | [] => rfl
        | c :: rest =>
            by_cases hc : c = '$'
            · subst hc
              match rest with
              | [] => rw [expandRepl.eq_def]; simp
              | d :: rest2 =>
                  have hspec : ¬(d = '$' ∨ d = '&' ∨ d = backquoteChar ∨ d = aposChar) := by
                    intro hx
                    rw [hasReplPat.eq_def] at h
                    simp [hx] at h
                  have hrest : hasReplPat (d :: rest2) = false := by
                    rw [hasReplPat.eq_def] at h
                    simpa [hspec] using h
                  have hlen : (d :: rest2).length ≤ n := by
                    simp only [List.length_cons] at hr ⊢
                    omega
                  have hd1 : ¬(d = '$') := fun hx => hspec (Or.inl hx)
                  have hd2 : ¬(d = '&') := fun hx => hspec (Or.inr (Or.inl hx))
                  have hd3 : ¬(d = backquoteChar) := fun hx => hspec (Or.inr (Or.inr (Or.inl hx)))
                  have hd4 : ¬(d = aposChar) := fun hx => hspec (Or.inr (Or.inr (Or.inr hx)))
                  rw [expandRepl.eq_def]
                  simp [hd1, hd2, hd3, hd4, ih (d :: rest2) hlen hrest]
            · have hrest : hasReplPat rest = false := by
                rw [hasReplPat.eq_def] at h
                simpa [hc] using h
              have hlen : rest.length ≤ n := by
                simp only [List.length_cons] at hr
                omega
              rw [expandRepl.eq_def]
              simp [hc, ih rest hlen hrest]
  exact fun r h => key r.length r le_rfl h

/-- Escaping produces a fragment that denotes exactly the literal name: every
metacharacter is neutralised, none survives as a pattern operator. -/
theorem fragLiteral_escapeRegex (S : List Char) : fragLiteral? (escapeRegex S) = some S := by
  induction S with
  | nil => rfl
  | cons c t ih =>
      by_cases hc : c ∈ metachars
      · rw [escapeRegex.eq_def]
        simp only [hc, if_true]
        rw [fragLiteral?.eq_def]
        simp [hc, ih]
      · have hcb : ¬(c = '\\') := fun hx => hc (by rw [hx]; decide)
        rw [escapeRegex.eq_def]
        simp only [hc, if_false]
        rw [fragLiteral?.eq_def]
        simp [hc, hcb, ih]

/-- The section regex finds a match exactly when the heading text occurs
case-insensitively. -/
theorem sectionMatch_isSome (doc s : List Char) :
    (sectionMatch doc s).isSome = occursCI (headPat s) doc := by
  rw [← findCI_isSome (headPat s) doc]
  cases h : findCI (headPat s) doc <;> simp [sectionMatch, h]

/-- The heading pattern cannot start a text without two adjacent
hash-folding characters. -/
theorem startsWithCI_headPat_false (S : List Char) :
    ∀ (xs : List Char), hasDoubleHash xs = false → startsWithCI (headPat S) xs = false := by
  intro xs h
  match xs with
  | [] => rfl
  | [c] => simp [headPat, startsWithCI]
  | c :: d :: rest =>
      have h1 : ¬(Char.toLower c = '#' ∧ Char.toLower d = '#') := by
        intro hx
        simp [hasDoubleHash, hx.1, hx.2] at h
      simp only [headPat, startsWithCI]
      cases hbc : (Char.toLower '#' == Char.toLower c)
      · simp
      · cases hbd : (Char.toLower '#' == Char.toLower d)
        · simp [hbd]
        · have hc1 : Char.toLower c = '#' := by
            have := eq_of_beq hbc
            rw [show Char.toLower '#' = '#' from by decide] at this
            exact this.symm
          have hd1 : Char.toLower d = '#' := by
            have := eq_of_beq hbd
            rw [show Char.toLower '#' = '#' from by decide] at this
            exact this.symm
          exact absurd ⟨hc1, hd1⟩ h1

/-- The heading pattern occurs nowhere in a text without two adjacent
hash-folding characters; in particular the default header never contains a
section match, whatever the section name. -/
theorem occursCI_headPat_false (S : List Char) :
    ∀ xs, hasDoubleHash xs = false → occursCI (headPat S) xs = false := by
  intro xs
  induction xs with
  | nil => intro h; rfl
  | cons x t ih =>
      intro h
      have hx : hasDoubleHash t = false := by
        cases t with
        | nil => rfl
        | cons d r =>
            simp only [hasDoubleHash, Bool.or_eq_false_iff] at h
            exact h.2
      simp [occursCI, startsWithCI_headPat_false S (x :: t) h, ih hx]

/-- Reduction of the section matcher on a successful search. -/
theorem sectionMatch_of_findCI {doc s : List Char} {i : Nat}
    (h : findCI (headPat s) doc = some i) :
    sectionMatch doc s =
      some (i, i + (headPat s).length + endScan (List.drop (i + (headPat s).length) doc)) := by
  unfold sectionMatch
  rw [h]

/-- Reduction of the section matcher on a failed search. -/
theorem sectionMatch_none {doc s : List Char} (h : findCI (headPat s) doc = none) :
    sectionMatch doc s = none := by
  unfold sectionMatch
  rw [h]

/-- Reduction of the upsert in the replace branch. -/
theorem upsertSection_of_match {doc s b : List Char} {i j : Nat}
    (h : sectionMatch doc s = some (i, j)) :
    upsertSection doc s b =
      List.take i doc ++
        expandRepl (List.take (j - i) (List.drop i doc)) (List.take i doc) (List.drop j doc)
          (newSectionText s b) ++
        List.drop j doc := by
  unfold upsertSection
  rw [h]

/-- Reduction of the upsert in the append branch. -/
theorem upsertSection_of_none {doc s b : List Char} (h : sectionMatch doc s = none) :
    upsertSection doc s b = doc ++ '\n' :: newSectionText s b := by
  unfold upsertSection
  rw [h]

/-- C4: for every session and filename, resolution returns the global path
with the global tier whenever the global-tier file exists (regardless of the
session-tier file); otherwise the session path with the session tier when
that file exists; otherwise the session path flagged not-existing.  The
function is total, so a missing file never raises. -/
theorem c4_resolution (ex : List Char → Bool) (gd sd fn : List Char) :
    (ex (joinP gd fn) = true →
      resolveRootFile ex gd sd fn = { path := joinP gd fn, exists_ := true, isGlobal := true }) ∧
    (ex (joinP gd fn) = false → ex (joinP sd fn) = true →
      resolveRootFile ex gd sd fn = { path := joinP sd fn, exists_ := true, isGlobal := false }) ∧
    (ex (joinP gd fn) = false → ex (joinP sd fn) = false →
      resolveRootFile ex gd sd fn = { path := joinP sd fn, exists_ := false, isGlobal := false }) :=
  ⟨fun h => by simp [resolveRootFile, h],
   fun h1 h2 => by simp [resolveRootFile, h1, h2],
   fun h1 h2 => by simp [resolveRootFile, h1, h2]⟩

/-- Witness for C4: the three resolution outcomes at concrete filesystems,
including one where both tiers exist and the global tier wins. -/
theorem c4_resolution_wit :
    resolveRootFile (fun _ => true) (lit "/data/identity") (lit "/s") (lit "SOUL.md") =
      { path := joinP (lit "/data/identity") (lit "SOUL.md"), exists_ := true, isGlobal := true } ∧
    resolveRootFile (fun p => p == joinP (lit "/s") (lit "SOUL.md")) (lit "/data/identity")
        (lit "/s") (lit "SOUL.md") =
      { path := joinP (lit "/s") (lit "SOUL.md"), exists_ := true, isGlobal := false } ∧
    resolveRootFile (fun _ => false) (lit "/data/identity") (lit "/s") (lit "SOUL.md") =
      { path := joinP (lit "/s") (lit "SOUL.md"), exists_ := false, isGlobal := false } :=
  ⟨(c4_resolution (fun _ => true) (lit "/data/identity") (lit "/s") (lit "SOUL.md")).1 (by decide),
   (c4_resolution (fun p => p == joinP (lit "/s") (lit "SOUL.md")) (lit "/data/identity")
      (lit "/s") (lit "SOUL.md")).2.1 (by decide) (by decide),
   (c4_resolution (fun _ => false) (lit "/data/identity") (lit "/s") (lit "SOUL.md")).2.2
      (by decide) (by decide)⟩

/-- C5: getContext yields the absent signal exactly when each tier is
missing, unreadable or blank; and whenever the global tier contributes
nothing (missing, read failure, or blank content) the provider behaves
exactly as if the global file were absent, falling through to the session
tier instead of propagating an error. -/
theorem c5_absent_signal (g s : FileView) :
    (getContext g s = none ↔ (blankish g = true ∧ blankish s = true)) ∧
    (blankish g = true → getContext g s = getContext .absent s) := by
  have hsess : sessionAttempt s = none ↔ blankish s = true := by
    cases s with
    | absent => simp [sessionAttempt, blankish]
    | unreadable => simp [sessionAttempt, blankish]
    | readable c => cases hc : hasNonWS c <;> simp [sessionAttempt, blankish, hc]
  constructor
  · cases g with
    | absent => simpa [getContext, blankish] using hsess
    | unreadable => simpa [getContext, blankish] using hsess
    | readable c =>
        cases hc : hasNonWS c
        · simpa [getContext, blankish, hc] using hsess
        · simp [getContext, blankish, hc]
  · intro hb
    cases g with
    | absent => rfl
    | unreadable => rfl
    | readable c =>
        have hc : hasNonWS c = false := by simpa [blankish] using hb
        simp [getContext, hc]

/-- Witness for C5: an unreadable global file falls through to a non-blank
session file, and with a whitespace-only session file the provider returns
the absent signal. -/
theorem c5_absent_signal_wit :
    getContext .unreadable (.readable (lit " persona ")) =
      getContext .absent (.readable (lit " persona ")) ∧
    getContext .unreadable (.readable (lit " \n ")) = none :=
  ⟨(c5_absent_signal .unreadable (.readable (lit " persona "))).2 (by decide),
   (c5_absent_signal .unreadable (.readable (lit " \n "))).1.mpr (by decide)⟩

/-- C7: whenever the arguments satisfy neither valid combination (no truthy
content, and not both section and sectionContent truthy — covering the empty
object and a lone section or sectionContent), soul.update performs no write
and returns the guidance text as a normal result whose error-flag field is
unset; the handler is a total function, so no exception is raised. -/
theorem c7_guidance_result (e : SoulEnv) (name : List Char) (file : Option (List Char))
    (args : UpdateArgs) (hc : truthy args.content = false)
    (hsec : truthy args.sectionName = false ∨ truthy args.sectionContent = false) :
    soulUpdate e name file args =
      { writes := [], result := { text := guidanceText, isError := none } } := by
  have h2 : (truthy args.sectionName && truthy args.sectionContent) = false := by
    rcases hsec with h | h <;> simp [h]
  simp [soulUpdate, hc, h2]

/-- Witness for C7: a call providing section without sectionContent writes
nothing and returns the guidance text. -/
theorem c7_guidance_result_wit :
    soulUpdate sampleEnv (lit "s1") none
        { content := none, sectionName := some (lit "S"), sectionContent := none } =
      { writes := [], result := { text := guidanceText, isError := none } } :=
  c7_guidance_result sampleEnv (lit "s1") none
    { content := none, sectionName := some (lit "S"), sectionContent := none }
    (by decide) (Or.inr (by decide))

/-- C10: the handler tests its arguments by string truthiness, so an
empty-string argument behaves as if absent: content set to the empty string
leads to exactly the behaviour of an absent content argument (fall-through
to the section branch or guidance), and a non-empty section together with an
empty sectionContent performs no write and returns the guidance text. -/
theorem c10_truthiness (e : SoulEnv) (name : List Char) (file : Option (List Char))
    (sn sc : Option (List Char)) (s : List Char) (hs : s ≠ []) :
    soulUpdate e name file { content := some [], sectionName := sn, sectionContent := sc } =
      soulUpdate e name file { content := none, sectionName := sn, sectionContent := sc } ∧
    soulUpdate e name file { content := none, sectionName := some s, sectionContent := some [] } =
      { writes := [], result := { text := guidanceText, isError := none } } := by
  constructor
  · rfl
  · simp [soulUpdate, truthy]

/-- Witness for C10: with content equal to the empty string and valid
section arguments the handler behaves exactly as if content were absent,
and an empty sectionContent yields the guidance result with no write. -/
theorem c10_truthiness_wit :
    soulUpdate sampleEnv (lit "s1") none
        { content := some [], sectionName := some (lit "S"), sectionContent := some (lit "B") } =
      soulUpdate sampleEnv (lit "s1") none
        { content := none, sectionName := some (lit "S"), sectionContent := some (lit "B") } ∧
    soulUpdate sampleEnv (lit "s1") none
        { content := none, sectionName := some (lit "S"), sectionContent := some [] } =
      { writes := [], result := { text := guidanceText, isError := none } } :=
  c10_truthiness sampleEnv (lit "s1") none (some (lit "S")) (some (lit "B")) (lit "S") (by decide)

/-- C1 counterexample: the document `intro ## S x\n## S\n\nold\n` contains
exactly one `## S` heading (its second line), yet the upsert rewrites the
first line: the unanchored regex matches the mid-line occurrence of `## S`,
so the bytes before the heading are not preserved (the first 13 bytes of the
result no longer equal `intro ## S x\n`) and the actual section is left
untouched. -/
theorem c1_claim_cex :
    upsertSection (lit "intro ## S x\n## S\n\nold\n") (lit "S") (lit "new") =
      lit "intro ## S\n\nnew\n\n## S\n\nold\n" ∧
    List.take 13 (upsertSection (lit "intro ## S x\n## S\n\nold\n") (lit "S") (lit "new")) ≠
      lit "intro ## S x\n" := by
  constructor
  · decide
  · decide

/-- C1 (amended): for a document pre ++ `## S` ++ mid ++ suffix in which no
case-insensitive occurrence of `## S` starts inside pre, mid contains no
start of a `\n## ` line (so the section runs to the start of suffix, or to
end of text when suffix is empty), suffix is empty or begins the next
heading line, and the replacement text carries no JavaScript replacement
pattern, the upsert replaces exactly the section span: the result is
pre ++ `## S\n\nB\n` ++ suffix, every byte before the heading and after the
section's end boundary unchanged. -/
theorem c1_replace_span (pre S mid suffix B : List Char)
    (hpre : ∀ k, k < pre.length →
      startsWithCI (headPat S) (List.drop k (pre ++ headPat S ++ mid ++ suffix)) = false)
    (hmid : ∀ k, k < mid.length → litStartsWith nlHeading (List.drop k (mid ++ suffix)) = false)
    (hsuffix : litStartsWith nlHeading suffix = true ∨ suffix = [])
    (hrepl : hasReplPat (newSectionText S B) = false) :
    upsertSection (pre ++ headPat S ++ mid ++ suffix) S B =
      pre ++ newSectionText S B ++ suffix := by
  have hD : pre ++ headPat S ++ mid ++ suffix = pre ++ (headPat S ++ (mid ++ suffix)) := by
    simp [List.append_assoc]
  rw [hD]
  rw [hD] at hpre
  have hstart : startsWithCI (headPat S)
      (List.drop pre.length (pre ++ (headPat S ++ (mid ++ suffix)))) = true := by
    rw [List.drop_left]
    exact startsWithCI_refl_append _ _
  have hfind : findCI (headPat S) (pre ++ (headPat S ++ (mid ++ suffix))) = some pre.length :=
    findCI_eq_some _ _ _ hpre hstart
  have hdropj : List.drop (pre.length + (headPat S).length)
      (pre ++ (headPat S ++ (mid ++ suffix))) = mid ++ suffix := by
    rw [show pre ++ (headPat S ++ (mid ++ suffix)) = (pre ++ headPat S) ++ (mid ++ suffix) from
        by simp [List.append_assoc],
      show pre.length + (headPat S).length = (pre ++ headPat S).length from
        (List.length_append _ _).symm,
      List.drop_left]
  have hend : endScan (mid ++ suffix) = mid.length := by
    rcases hsuffix with hs | hs
    · exact endScan_eq_at (mid ++ suffix) mid.length hmid (by rw [List.drop_left]; exact hs)
    · subst hs
      rw [List.append_nil]
      apply endScan_eq_len
      intro k hk
      have hk2 := hmid k hk
      rwa [List.append_nil] at hk2
  have hsm : sectionMatch (pre ++ (headPat S ++ (mid ++ suffix))) S =
      some (pre.length, pre.length + (headPat S).length + mid.length) := by
    rw [sectionMatch_of_findCI hfind, hdropj, hend]
  have htake : List.take pre.length (pre ++ (headPat S ++ (mid ++ suffix))) = pre :=
    List.take_left _ _
  have hstop : List.drop (pre.length + (headPat S).length + mid.length)
      (pre ++ (headPat S ++ (mid ++ suffix))) = suffix := by
    rw [show pre ++ (headPat S ++ (mid ++ suffix)) = ((pre ++ headPat S) ++ mid) ++ suffix from
        by simp [List.append_assoc],
      show pre.length + (headPat S).length + mid.length = ((pre ++ headPat S) ++ mid).length from
        by simp only [List.length_append],
      List.drop_left]
  rw [upsertSection_of_match hsm, expandRepl_eq_self _ _ _ (newSectionText S B) hrepl,
    htake, hstop]

/-- Witness for C1: replacing the `Persona` section of a well-formed
document rewrites exactly that section and preserves the title and the
following section. -/
theorem c1_replace_span_wit :
    upsertSection (lit "# T\n\n## Persona\n\nold\n## Next\n\nz\n") (lit "Persona") (lit "new") =
      lit "# T\n\n## Persona\n\nnew\n\n## Next\n\nz\n" := by
  have h := c1_replace_span (lit "# T\n\n") (lit "Persona") (lit "\n\nold") (lit "\n## Next\n\nz\n")
    (lit "new") (by decide) (by decide) (Or.inl (by decide)) (by decide)
  have e1 : lit "# T\n\n## Persona\n\nold\n## Next\n\nz\n" =
      lit "# T\n\n" ++ headPat (lit "Persona") ++ lit "\n\nold" ++ lit "\n## Next\n\nz\n" := by
    decide
  have e2 : lit "# T\n\n" ++ newSectionText (lit "Persona") (lit "new") ++ lit "\n## Next\n\nz\n" =
      lit "# T\n\n## Persona\n\nnew\n\n## Next\n\nz\n" := by
    decide
  rw [e1, h, e2]

/-- C2 counterexample: the section name `A$&B` contains regex
metacharacters; the pattern matches literally (case-insensitively), but in
the replace branch String.replace expands `$&` to the matched text, so the
written document never contains the heading `## A$&B` literally. -/
theorem c2_claim_cex :
    upsertSection (lit "## a$&b\nold") (lit "A$&B") (lit "x") =
      lit "## A## a$&b\noldB\n\nx\n" ∧
    occursLit (headPat (lit "A$&B")) (upsertSection (lit "## a$&b\nold") (lit "A$&B") (lit "x")) =
      false := by
  constructor
  · decide
  · decide

/-- C2 (amended): for every section name, escaping neutralises every regex
metacharacter — the escaped fragment denotes exactly the literal name, so no
metacharacter acts as a pattern operator and matching is by exact name,
case-insensitively (the upsert finds a section exactly when the literal
heading occurs up to case); and provided the replacement text contains no
JavaScript replacement pattern, the written document contains the heading
with the name literally. -/
theorem c2_literal_name (S D B : List Char) (hrepl : hasReplPat (newSectionText S B) = false) :
    fragLiteral? (escapeRegex S) = some S ∧
    (sectionMatch D S).isSome = occursCI (headPat S) D ∧
    occursLit (headPat S) (upsertSection D S B) = true := by
  refine ⟨fragLiteral_escapeRegex S, sectionMatch_isSome D S, ?_⟩
  cases hm : sectionMatch D S with
  | none =>
      rw [upsertSection_of_none hm]
      have hb : D ++ '\n' :: newSectionText S B =
          (D ++ ['\n']) ++ (headPat S ++ ('\n' :: '\n' :: (B ++ ['\n']))) := by
        simp [newSectionText, List.append_assoc]
      rw [hb]
      exact occursLit_append_left _
        (occursLit_of_startsWith (litStartsWith_refl_append _ _))
  | some ij =>
      obtain ⟨i, j⟩ := ij
      rw [upsertSection_of_match hm,
        expandRepl_eq_self _ _ _ (newSectionText S B) hrepl]
      have hb : List.take i D ++ newSectionText S B ++ List.drop j D =
          List.take i D ++ (headPat S ++ ('\n' :: '\n' :: (B ++ ['\n']) ++ List.drop j D)) := by
        simp [newSectionText, List.append_assoc]
      rw [hb]
      exact occursLit_append_left _
        (occursLit_of_startsWith (litStartsWith_refl_append _ _))

/-- Witness for C2: the parenthesised name `Goals (v2)` is escaped to a
literal fragment, its heading is found in a document where it appears in
different case, and the rewritten document contains the heading literally. -/
theorem c2_literal_name_wit :
    fragLiteral? (escapeRegex (lit "Goals (v2)")) = some (lit "Goals (v2)") ∧
    (sectionMatch (lit "# T\n\n## goals (v2)\n\nold\n") (lit "Goals (v2)")).isSome =
      occursCI (headPat (lit "Goals (v2)")) (lit "# T\n\n## goals (v2)\n\nold\n") ∧
    occursLit (headPat (lit "Goals (v2)"))
      (upsertSection (lit "# T\n\n## goals (v2)\n\nold\n") (lit "Goals (v2)") (lit "new")) =
      true :=
  c2_literal_name (lit "Goals (v2)") (lit "# T\n\n## goals (v2)\n\nold\n") (lit "new") (by decide)

/-- C3 counterexample: the document `x ## S y` contains no `## S` heading
(no line begins with `##`), yet the upsert does not append: the unanchored
regex matches the mid-line `## S`, the span from there to end of text is
replaced, and the original document does not survive as a prefix. -/
theorem c3_claim_cex :
    upsertSection (lit "x ## S y") (lit "S") (lit "B") = lit "x ## S\n\nB\n" ∧
    upsertSection (lit "x ## S y") (lit "S") (lit "B") ≠
      lit "x ## S y" ++ '\n' :: newSectionText (lit "S") (lit "B") := by
  constructor
  · decide
  · decide

/-- C3 (amended): when the text `## S` occurs nowhere in D, even
case-insensitively or mid-line (not merely: is no heading), the upsert
returns D followed by `\n## S\n\n<body>\n`, so D is an unchanged prefix; and
when no session document exists at all, the handler appends the section
after the default document header, a single top-level title line. -/
theorem c3_append_keeps_doc (D S B : List Char) (e : SoulEnv) (name : List Char)
    (hocc : occursCI (headPat S) D = false) (hS : S ≠ []) (hB : B ≠ []) :
    upsertSection D S B = D ++ '\n' :: newSectionText S B ∧
    soulUpdate e name none { content := none, sectionName := some S, sectionContent := some B } =
      { writes := [(soulPathOf e name, defaultHeader ++ '\n' :: newSectionText S B)],
        result := { text := updatedText S, isError := none } } := by
  have happend : ∀ doc : List Char, occursCI (headPat S) doc = false →
      upsertSection doc S B = doc ++ '\n' :: newSectionText S B := fun doc hd =>
    upsertSection_of_none (sectionMatch_none (findCI_eq_none _ _ hd))
  have hts : truthy (some S) = true := by
    cases S with
    | nil => exact absurd rfl hS
    | cons a t => rfl
  have htb : truthy (some B) = true := by
    cases B with
    | nil => exact absurd rfl hB
    | cons a t => rfl
  refine ⟨happend D hocc, ?_⟩
  have hdfl : upsertSection defaultHeader S B = defaultHeader ++ '\n' :: newSectionText S B :=
    happend defaultHeader (occursCI_headPat_false S defaultHeader (by decide))
  simp [soulUpdate, truthy, hts, htb, hdfl]
  exact ⟨hS, hB⟩

/-- Witness for C3: appending a `Boundaries` section to a document without
one preserves the document as a prefix, and with no session file the new
section lands after the default header. -/
theorem c3_append_keeps_doc_wit :
    upsertSection (lit "# X\n\nbody\n") (lit "Boundaries") (lit "Be kind") =
      lit "# X\n\nbody\n" ++ '\n' :: newSectionText (lit "Boundaries") (lit "Be kind") ∧
    soulUpdate sampleEnv (lit "sess") none
        { content := none, sectionName := some (lit "Boundaries"),
          sectionContent := some (lit "Be kind") } =
      { writes := [(soulPathOf sampleEnv (lit "sess"),
          defaultHeader ++ '\n' :: newSectionText (lit "Boundaries") (lit "Be kind"))],
        result := { text := updatedText (lit "Boundaries"), isError := none } } :=
  c3_append_keeps_doc (lit "# X\n\nbody\n") (lit "Boundaries") (lit "Be kind") sampleEnv
    (lit "sess") (by decide) (by decide) (by decide)

/-- C6 counterexample: content provided as the empty string is falsy, so the
handler does not overwrite the file with it and does not report a
replaced-entirely result; it falls through to the section branch instead. -/
theorem c6_claim_cex :
    (soulUpdate sampleEnv (lit "s1") none
        { content := some [], sectionName := some (lit "S"),
          sectionContent := some (lit "B") }).result.text ≠
      lit "SOUL.md replaced entirely" ∧
    (soulUpdate sampleEnv (lit "s1") none
        { content := some [], sectionName := some (lit "S"),
          sectionContent := some (lit "B") }).writes ≠
      [(soulPathOf sampleEnv (lit "s1"), ([] : List Char))] := by
  constructor
  · decide
  · decide

/-- C6 (amended): for every argument object in which content is provided as
a non-empty string, the handler writes content in full to the session-tier
path and reports the replaced-entirely result, and this branch takes
precedence over section and sectionContent even when both are present. -/
theorem c6_content_replaces (e : SoulEnv) (name : List Char) (file : Option (List Char))
    (args : UpdateArgs) (c : List Char) (hc : args.content = some c) (hne : c ≠ []) :
    soulUpdate e name file args =
      { writes := [(soulPathOf e name, c)],
        result := { text := lit "SOUL.md replaced entirely", isError := none } } := by
  have ht : truthy (some c) = true := by
    cases c with
    | nil => exact absurd rfl hne
    | cons a t => rfl
  simp [soulUpdate, hc, ht]

/-- Witness for C6: full replacement wins over simultaneously supplied
section arguments and writes exactly the given content to the session path. -/
theorem c6_content_replaces_wit :
    soulUpdate sampleEnv (lit "s1") (some (lit "old"))
        { content := some (lit "full"), sectionName := some (lit "S"),
          sectionContent := some (lit "B") } =
      { writes := [(soulPathOf sampleEnv (lit "s1"), lit "full")],
        result := { text := lit "SOUL.md replaced entirely", isError := none } } :=
  c6_content_replaces sampleEnv (lit "s1") (some (lit "old"))
    { content := some (lit "full"), sectionName := some (lit "S"),
      sectionContent := some (lit "B") }
    (lit "full") rfl (by decide)

/-- C8: every write soul.update performs targets the session-tier SOUL.md
path, whatever arguments are supplied; and under the default environment
(no overrides) that path differs from the global-tier SOUL.md path for every
home directory and session name, so the global tier is never written. -/
theorem c8_session_tier_only (e : SoulEnv) (name : List Char) (file : Option (List Char))
    (args : UpdateArgs) :
    (∀ pc : List Char × List Char,
      pc ∈ (soulUpdate e name file args).writes → pc.1 = soulPathOf e name) ∧
    (e.woprHome = none → e.globalIdentity = none →
      ∀ pc : List Char × List Char, pc ∈ (soulUpdate e name file args).writes →
        pc.1 ≠ joinP (globalIdentityDirOf e) (lit "SOUL.md")) := by
  have hmain : ∀ pc : List Char × List Char,
      pc ∈ (soulUpdate e name file args).writes → pc.1 = soulPathOf e name := by
    intro pc hpc
    cases h1 : truthy args.content
    · cases h2 : truthy args.sectionName && truthy args.sectionContent
      · simp [soulUpdate, h1, h2] at hpc
      · simp [soulUpdate, h1, h2] at hpc
        simp [hpc]
    · simp [soulUpdate, h1] at hpc
      simp [hpc]
  refine ⟨hmain, fun hwh hgi pc hpc heq => ?_⟩
  have hpath : soulPathOf e name = joinP (globalIdentityDirOf e) (lit "SOUL.md") := by
    rw [← hmain pc hpc]
    exact heq
  have hlen := congrArg List.length hpath
  have l1 : (lit "wopr").length = 4 := rfl
  have l2 : (lit "sessions").length = 8 := rfl
  have l3 : (lit "SOUL.md").length = 7 := rfl
  have l4 : (lit "/data/identity").length = 14 := rfl
  simp only [soulPathOf, sessionDirOf, sessionsDirOf, woprHomeDir, globalIdentityDirOf,
    orDefault, hwh, hgi, joinP, List.length_append, List.length_cons, l1, l2, l3, l4] at hlen
  omega

/-- Witness for C8: a concrete full-replacement write lands on the session
path and not on the global identity path. -/
theorem c8_session_tier_only_wit :
    ((soulPathOf sampleEnv (lit "s1"), lit "x") : List Char × List Char).1 =
      soulPathOf sampleEnv (lit "s1") ∧
    ((soulPathOf sampleEnv (lit "s1"), lit "x") : List Char × List Char).1 ≠
      joinP (globalIdentityDirOf sampleEnv) (lit "SOUL.md") :=
  ⟨(c8_session_tier_only sampleEnv (lit "s1") none
      { content := some (lit "x"), sectionName := none, sectionContent := none }).1
      (soulPathOf sampleEnv (lit "s1"), lit "x") (by decide),
   (c8_session_tier_only sampleEnv (lit "s1") none
      { content := some (lit "x"), sectionName := none, sectionContent := none }).2 rfl rfl
      (soulPathOf sampleEnv (lit "s1"), lit "x") (by decide)⟩

/-- C9: soul.get returns the not-found text exactly when no tier has the
file; when the global file exists its raw content is returned behind the
global source tag; when only the session file exists its raw content —
whatever it is, including whitespace-only text — is returned behind the
session source tag, and the result text contains both the tag
`[Source: session]` and the raw content. -/
theorem c9_get_raw (ex : List Char → Bool) (rd : List Char → List Char) (e : SoulEnv)
    (name : List Char) :
    (ex (joinP (globalIdentityDirOf e) (lit "SOUL.md")) = false →
      ex (joinP (sessionDirOf e name) (lit "SOUL.md")) = false →
      soulGet ex rd e name = { text := lit "No SOUL.md found.", isError := none }) ∧
    (ex (joinP (globalIdentityDirOf e) (lit "SOUL.md")) = true →
      soulGet ex rd e name =
        { text := lit "[Source: global]\n\n" ++
            rd (joinP (globalIdentityDirOf e) (lit "SOUL.md")), isError := none }) ∧
    (ex (joinP (globalIdentityDirOf e) (lit "SOUL.md")) = false →
      ex (joinP (sessionDirOf e name) (lit "SOUL.md")) = true →
      soulGet ex rd e name =
        { text := lit "[Source: session]\n\n" ++
            rd (joinP (sessionDirOf e name) (lit "SOUL.md")), isError := none } ∧
      occursLit (lit "[Source: session]") (soulGet ex rd e name).text = true ∧
      occursLit (rd (joinP (sessionDirOf e name) (lit "SOUL.md")))
        (soulGet ex rd e name).text = true) := by
  refine ⟨fun h1 h2 => ?_, fun h1 => ?_, fun h1 h2 => ?_⟩
  · simp [soulGet, resolveRootFile, h1, h2]
  · simp [soulGet, resolveRootFile, h1]
    rw [← List.append_assoc, ← List.append_assoc,
      show lit "[Source: " ++ lit "global" ++ lit "]\n\n" = lit "[Source: global]\n\n" from
        by decide]
  · have hrec : soulGet ex rd e name =
        { text := lit "[Source: session]\n\n" ++ rd (joinP (sessionDirOf e name) (lit "SOUL.md")),
          isError := none } := by
      simp [soulGet, resolveRootFile, h1, h2]
      rw [← List.append_assoc, ← List.append_assoc,
        show lit "[Source: " ++ lit "session" ++ lit "]\n\n" = lit "[Source: session]\n\n" from
          by decide]
    refine ⟨hrec, ?_, ?_⟩
    · rw [hrec]
      show occursLit (lit "[Source: session]")
        (lit "[Source: session]\n\n" ++ rd (joinP (sessionDirOf e name) (lit "SOUL.md"))) = true
      rw [show lit "[Source: session]\n\n" =
          lit "[Source: session]" ++ lit "\n\n" from by decide, List.append_assoc]
      exact occursLit_of_startsWith (litStartsWith_refl_append _ _)
    · rw [hrec]
      show occursLit (rd (joinP (sessionDirOf e name) (lit "SOUL.md")))
        (lit "[Source: session]\n\n" ++ rd (joinP (sessionDirOf e name) (lit "SOUL.md"))) = true
      exact occursLit_append_left _ (occursLit_of_startsWith (litStartsWith_self _))

/-- Witness for C9: with the global file absent and the session file
containing `Session persona`, soul.get returns that content behind the
session source tag, and the tag and content occur in the text. -/
theorem c9_get_raw_wit :
    soulGet (fun p => p == joinP (sessionDirOf sampleEnv (lit "sess")) (lit "SOUL.md"))
        (fun _ => lit "Session persona") sampleEnv (lit "sess") =
      { text := lit "[Source: session]\n\nSession persona", isError := none } ∧
    occursLit (lit "Session persona")
      (soulGet (fun p => p == joinP (sessionDirOf sampleEnv (lit "sess")) (lit "SOUL.md"))
        (fun _ => lit "Session persona") sampleEnv (lit "sess")).text = true := by
  have h := (c9_get_raw
      (fun p => p == joinP (sessionDirOf sampleEnv (lit "sess")) (lit "SOUL.md"))
      (fun _ => lit "Session persona") sampleEnv (lit "sess")).2.2 (by decide) (by decide)
  refine ⟨?_, h.2.2⟩
  rw [h.1]
  decide

end WoprSoul
